import Mathlib

/-!
Shallow embedding of the connection-lifecycle core of `src/services/room-manager.js`
(class `RoomManager`): the join/leave lifecycle, the reconnection scheduler with
exponential backoff, the tracker/peer health sweeps, and the small query API.

Modelling conventions:
* the mutable fields of the `RoomManager` object become the fields of the `RM`
  structure; JS `null` becomes `Option`;
* the JS runtime's set of live (armed, not yet fired) reconnection `setTimeout`
  timers is modelled explicitly as `pendingReconnects` (a list of
  timer-id/delay pairs) together with a fresh-id counter `timerCtr`;
  `reconnectionTimeout` is the handle the object itself stores;
  `setTimeout` appends a fresh entry, `clearTimeout h` removes the entry with
  id `h` (a no-op on an already fired or cleared handle, as in JS);
* the three interval/one-shot timers whose only observable is whether they are
  armed (`connectionHealthTimer`, `peerHealthTimer`, `stableConnectionTimer`)
  are modelled as Booleans;
* status emissions through `onConnectionStatusCallback` are collected in an
  output list of strings, and peer connections closed during cleanup in a
  second output list, so transitions return `RM × List String × List String`;
* delays are exact rationals: every delay the code computes
  (`2000 * 1.5 ^ k` for small `k`, capped at `30000`) is exactly representable
  in IEEE doubles, so `ℚ` with `3/2` is a faithful model of the JS arithmetic;
* timestamps are naturals; `now - last` uses truncated subtraction, which
  agrees with the JS comparison `now - last > threshold` in both cases
  (a negative JS difference and a truncated `0` both fail the test);
* transport calls (`trystero.joinRoom`, `room.ping`, ...) are oracles passed
  as parameters: `ping : String → Option Nat` returns `some latency` on a
  resolved numeric latency and `none` when the ping rejects or resolves null
  (both of which the code treats the same way: no timestamp update);
* purely observational code (console logging, wake locks, latency logging in
  `checkConnectionHealth`, the event-handler registration) has no state effect
  and is not modelled.
-/

/-- A Trystero room handle. Each peer connection carries the flag
`connectionState === closed` that `leaveRoom` / the final cleanup consult. -/
structure Room where
  peers : List (String × Bool)
  deriving Repr, DecidableEq

/-- The join parameters stored in `this.lastRoomConfig` for reconnection. -/
structure RoomConfig where
  roomId : String
  password : Option String
  deriving Repr, DecidableEq

/-- The state of a `RoomManager` object plus the runtime's live reconnection
timers (see the module comment). -/
structure RM where
  room : Option Room
  isConnected : Bool
  connectionHealthTimer : Bool
  reconnectionAttempts : Nat
  maxReconnectionAttempts : Nat
  reconnectionDelay : ℚ
  maxReconnectionDelay : ℚ
  reconnectionTimeout : Option Nat
  isReconnecting : Bool
  connectionStable : Bool
  stableConnectionTimer : Bool
  peerHealthChecks : List (String × Nat)
  peerHealthTimer : Bool
  peerTimeoutThreshold : Nat
  lastRoomConfig : Option RoomConfig
  pendingReconnects : List (Nat × ℚ)
  timerCtr : Nat
  deriving Repr, DecidableEq

/-- The constructor values of `RoomManager` (and an empty timer runtime). -/
def initRM : RM :=
  { room := none
    isConnected := false
    connectionHealthTimer := false
    reconnectionAttempts := 0
    maxReconnectionAttempts := 5
    reconnectionDelay := 2000
    maxReconnectionDelay := 30000
    reconnectionTimeout := none
    isReconnecting := false
    connectionStable := false
    stableConnectionTimer := false
    peerHealthChecks := []
    peerHealthTimer := false
    peerTimeoutThreshold := 30000
    lastRoomConfig := none
    pendingReconnects := []
    timerCtr := 0 }

/-- Ids of the peer connections whose `connectionState` is not already
`closed`: exactly the connections on which cleanup calls `close()`. -/
def closeOpenPeers (r : Room) : List String :=
  (r.peers.filter (fun p => !p.2)).map Prod.fst

/-- Effect of `clearTimeout(this.reconnectionTimeout)` on the runtime's live
timers: nothing when no handle is stored, otherwise the timer with that id is
removed (a no-op if it already fired or was cleared, as with JS handles). -/
def clearPending (l : List (Nat × ℚ)) : Option Nat → List (Nat × ℚ)
  | none => l
  | some h => l.filter fun t => decide (t.1 ≠ h)

/-- `if (this.reconnectionTimeout) { clearTimeout(...); this.reconnectionTimeout = null }`
as it appears in `leaveRoom`. -/
def clearReconnectTimer (s : RM) : RM :=
  match s.reconnectionTimeout with
  | none => s
  | some h =>
      { s with
        pendingReconnects := clearPending s.pendingReconnects (some h)
        reconnectionTimeout := none }

/-- The backoff delay `Math.min(this.reconnectionDelay * Math.pow(1.5, attempts - 1),
this.maxReconnectionDelay)` computed by `scheduleReconnection`. The code
increments `reconnectionAttempts` first and then uses exponent
`attempts - 1`, which equals the pre-increment value used here. -/
def scheduleDelay (s : RM) : ℚ :=
  min (s.reconnectionDelay * (3 / 2 : ℚ) ^ s.reconnectionAttempts) s.maxReconnectionDelay

/-- `scheduleReconnection` (room-manager.js lines 595-688). Output:
next state, statuses emitted, peer connections closed. The body of the armed
timeout is a separate future event and not part of this transition. -/
def scheduleReconnection (s : RM) : RM × List String × List String :=
  if s.isReconnecting || s.lastRoomConfig.isNone then
    (s, [], [])
  else if s.maxReconnectionAttempts ≤ s.reconnectionAttempts then
    -- max attempts reached: final cleanup, emit failed, no timer armed
    let closed := match s.room with
      | none => []
      | some r => closeOpenPeers r
    ({ s with isReconnecting := false, room := none }, [ "failed" ], closed)
  else
    -- attempt++, compute backoff, clear any pending timeout, arm a new one
    let delay := scheduleDelay s
    let remaining := clearPending s.pendingReconnects s.reconnectionTimeout
    ({ s with
        reconnectionAttempts := s.reconnectionAttempts + 1
        isReconnecting := true
        pendingReconnects := remaining ++ [(s.timerCtr, delay)]
        reconnectionTimeout := some s.timerCtr
        timerCtr := s.timerCtr + 1 }, [], [])

/-- `handleConnectionLoss` (lines 578-593). -/
def handleConnectionLoss (s : RM) : RM × List String × List String :=
  if s.isReconnecting then
    (s, [], [])
  else
    let s1 := { s with isConnected := false, connectionStable := false }
    let rest := scheduleReconnection s1
    (rest.1, "reconnecting" :: rest.2.1, rest.2.2)

/-- The tracker part of `checkConnectionHealth` (lines 538-576);
`connectedTrackers` is the number of relay sockets currently open. The
peer-ping probe in the same function only logs and is not modelled. -/
def checkConnectionHealth (s : RM) (connectedTrackers : Nat) :
    RM × List String × List String :=
  if !s.isConnected || s.room.isNone then
    (s, [], [])
  else if connectedTrackers = 0 && s.connectionStable then
    handleConnectionLoss s
  else
    (s, [], [])

/-- `leaveRoom` (lines 301-364). -/
def leaveRoom (s : RM) : RM × List String × List String :=
  match s.room with
  | none => (s, [], [])
  | some r =>
      let s1 :=
        { s with
          room := none
          isConnected := false
          connectionStable := false
          isReconnecting := false
          lastRoomConfig := none
          connectionHealthTimer := false
          peerHealthTimer := false
          peerHealthChecks := []
          stableConnectionTimer := false }
      (clearReconnectTimer s1, [ "disconnected" ], closeOpenPeers r)

/-- Result of a `joinRoom` call: final state, statuses emitted, connections
closed by the pre-join leave, whether `scheduleReconnection` was invoked, and
the value surfaced to the caller (`ok` on success, the rethrown error on
failure). -/
structure JoinResult where
  state : RM
  statuses : List String
  closed : List String
  invokedScheduler : Bool
  result : Except String Unit
  deriving Repr

/-- `joinRoom` (lines 99-170) after a successful `init()`. `ok` tells whether
the transport's `trystero.joinRoom` succeeds (returning `newRoom`) or throws. -/
def joinRoom (cfg : RoomConfig) (ok : Bool) (newRoom : Room) (s : RM) : JoinResult :=
  -- already in a room and not reconnecting: leave first
  let pre :=
    if s.room.isSome && !s.isReconnecting then leaveRoom s else (s, [], [])
  let s0 := pre.1
  -- this.lastRoomConfig = { roomId, password, onError } (before the join call)
  let s1 := { s0 with lastRoomConfig := some cfg }
  if ok then
    let s2 :=
      { s1 with
        room := some newRoom
        isConnected := true
        reconnectionAttempts := 0
        isReconnecting := false
        connectionHealthTimer := true
        peerHealthTimer := true
        stableConnectionTimer := true }
    ⟨s2, pre.2.1 ++ [ "connected" ], pre.2.2, false, Except.ok ()⟩
  else
    let s2 := { s1 with isConnected := false, isReconnecting := false }
    if s2.connectionStable || 0 < s2.reconnectionAttempts then
      let rest := scheduleReconnection s2
      ⟨rest.1, pre.2.1 ++ [ "failed" ] ++ rest.2.1, pre.2.2 ++ rest.2.2, true,
        Except.error "join failed"⟩
    else
      ⟨s2, pre.2.1 ++ [ "failed" ], pre.2.2, false, Except.error "join failed"⟩

/-- The 10-second stability timeout armed by `joinRoom` firing:
`this.connectionStable = true`. Firing consumes the pending timer. -/
def stableTimerFire (s : RM) : RM :=
  if s.stableConnectionTimer then
    { s with connectionStable := true, stableConnectionTimer := false }
  else
    s

/-- `getConnectionStatus` (lines 744-755). -/
def getConnectionStatus (s : RM) : String :=
  if s.isReconnecting then "reconnecting"
  else if !s.isConnected then "disconnected"
  else if s.connectionStable then "stable"
  else "connecting"

/-- `forceReconnection` (lines 757-767). -/
def forceReconnection (s : RM) : Except String (RM × List String × List String) :=
  if s.lastRoomConfig.isNone then
    Except.error "No room configuration available for reconnection"
  else
    Except.ok (handleConnectionLoss { s with reconnectionAttempts := 0 })

/-- `getPeers` (lines 367-376). -/
def getPeers (s : RM) : List (String × Bool) :=
  match s.room with
  | none => []
  | some r => r.peers

/-- `pingPeer` (lines 398-410): the oracle returns `some latency` when the
transport ping resolves, `none` when it rejects (the catch returns null). -/
def pingPeer (s : RM) (ping : String → Option Nat) (peerId : String) :
    Except String (Option Nat) :=
  if s.room.isNone then
    Except.error "No room available"
  else
    match ping peerId with
    | some latency => Except.ok (some latency)
    | none => Except.ok none

/-- `addStream` (lines 413-425) up to the transport call (whose own failure is
rethrown and orthogonal to the no-room check verified here). -/
def addStream (s : RM) : Except String Unit :=
  if s.room.isNone then Except.error "No room available" else Except.ok ()

/-- `removeStream` (lines 428-437): `some ()` when the transport call was made
(its errors are caught), `none` when the function returned straight away. -/
def removeStream (s : RM) : Except String (Option Unit) :=
  if s.room.isNone then Except.ok none else Except.ok (some ())

/-- `makeAction` (lines 291-298); the returned action handle is abstracted to
its id. -/
def makeAction (s : RM) (actionId : String) : Except String String :=
  if s.room.isNone then Except.error "No room available" else Except.ok actionId

/-- One pass of the `for` loop of `checkPeerHealth` (lines 717-741): `entries`
is the snapshot `Array.from(this.peerHealthChecks.entries())`, `table` the
live map being mutated. Returns the final map and the ids that were pinged. -/
def sweepPeers (threshold now : Nat) (ping : String → Option Nat) :
    List (String × Nat) → List (String × Nat) → List (String × Nat) × List String
  | [], table => (table, [])
  | (pid, last) :: rest, table =>
      if threshold < now - last then
        -- unresponsive for too long: drop from health checks, do not ping
        sweepPeers threshold now ping rest
          (table.filter (fun q => decide (q.1 ≠ pid)))
      else
        match ping pid with
        | some _ =>
            -- successful ping: update the timestamp to now
            let rec0 := sweepPeers threshold now ping rest
              (table.map (fun q => if q.1 = pid then (pid, now) else q))
            (rec0.1, pid :: rec0.2)
        | none =>
            -- failed ping: leave the record stale for the next sweep
            let rec0 := sweepPeers threshold now ping rest table
            (rec0.1, pid :: rec0.2)

/-- `checkPeerHealth` (lines 709-742). -/
def checkPeerHealth (s : RM) (now : Nat) (ping : String → Option Nat) :
    RM × List String :=
  if !s.isConnected || s.room.isNone then
    (s, [])
  else
    let swept := sweepPeers s.peerTimeoutThreshold now ping
      s.peerHealthChecks s.peerHealthChecks
    ({ s with peerHealthChecks := swept.1 }, swept.2)

/-- Iterated calls to `scheduleReconnection` (discarding emissions): the
"every sequence of schedule requests" of the timer-stacking invariant. -/
def schedN : Nat → RM → RM
  | 0, s => s
  | n + 1, s => schedN n (scheduleReconnection s).1

/-- The timer-runtime invariant maintained by the code: at most one live
reconnection timer, and the object's stored handle tracks every live timer. -/
def goodTimers (s : RM) : Prop :=
  s.pendingReconnects.length ≤ 1 ∧
    ∀ p ∈ s.pendingReconnects, s.reconnectionTimeout = some p.1

instance (s : RM) : Decidable (goodTimers s) := by
  unfold goodTimers
  infer_instance

/-! ## Helper lemmas about the reconnection scheduler -/

/-- Under the timer invariant, clearing the stored handle empties the set of
live reconnection timers. -/
theorem clearPending_eq_nil (l : List (Nat × ℚ)) (t : Option Nat)
    (h : ∀ p ∈ l, t = some p.1) : clearPending l t = [] := by
  cases t with
  | none =>
      cases l with
      | nil => rfl
      | cons a as => simpa using h a (by simp)
  | some h0 =>
      unfold clearPending
      rw [List.filter_eq_nil_iff]
      intro a ha
      have ha2 := h a ha
      simp only [Option.some.injEq] at ha2
      simp [← ha2]

theorem goodTimers_schedule (s : RM) (h : goodTimers s) :
    goodTimers (scheduleReconnection s).1 := by
  unfold scheduleReconnection
  split
  · exact h
  · split
    · exact ⟨h.1, h.2⟩
    · have hnil : clearPending s.pendingReconnects s.reconnectionTimeout = [] :=
        clearPending_eq_nil _ _ h.2
      refine ⟨?_, ?_⟩
      · simp [hnil]
      · intro p hp
        simp only [hnil, List.nil_append, List.mem_singleton] at hp
        simp [hp]

theorem goodTimers_schedN (n : Nat) (s : RM) (h : goodTimers s) :
    goodTimers (schedN n s) := by
  induction n generalizing s with
  | zero => exact h
  | succ n ih => exact ih _ (goodTimers_schedule s h)

/-- When the guards pass and the attempt cap is not yet reached,
`scheduleReconnection` leaves exactly one live timer: the fresh one. -/
theorem schedule_arms_single (s : RM) (h : goodTimers s)
    (h1 : s.isReconnecting = false) (h2 : s.lastRoomConfig.isSome = true)
    (h3 : s.reconnectionAttempts < s.maxReconnectionAttempts) :
    (scheduleReconnection s).1.pendingReconnects = [(s.timerCtr, scheduleDelay s)] := by
  have hnil : clearPending s.pendingReconnects s.reconnectionTimeout = [] :=
    clearPending_eq_nil _ _ h.2
  have hcond : (s.isReconnecting || s.lastRoomConfig.isNone) = false := by
    rw [h1, Bool.false_or]
    cases hc : s.lastRoomConfig with
    | none => rw [hc] at h2; simp at h2
    | some c => rfl
  unfold scheduleReconnection
  rw [hcond]
  simp only [Bool.false_eq_true, if_false, if_neg (Nat.not_le.mpr h3)]
  simp [hnil]

/-- `scheduleReconnection` emits either nothing or exactly one `failed`. -/
theorem schedule_statuses (s : RM) :
    (scheduleReconnection s).2.1 = [] ∨ (scheduleReconnection s).2.1 = [ "failed" ] := by
  unfold scheduleReconnection
  split
  · exact Or.inl rfl
  · split
    · exact Or.inr rfl
    · exact Or.inl rfl

theorem schedule_isConnected (s : RM) :
    (scheduleReconnection s).1.isConnected = s.isConnected := by
  unfold scheduleReconnection
  split
  · rfl
  · split
    · rfl
    · rfl

/-- With no stored join parameters, `scheduleReconnection` is a no-op. -/
theorem schedule_noop_of_no_config (t : RM) (hc : t.lastRoomConfig = none) :
    scheduleReconnection t = (t, [], []) := by
  unfold scheduleReconnection
  rw [hc]
  simp

/-! ## C1 -/

/-- C1: at most one reconnection timer is ever pending. Starting from any
state satisfying the timer invariant, every sequence of `scheduleReconnection`
calls keeps at most one live timer; a schedule request with the
`isReconnecting` flag set is a complete no-op; and whenever a new timer is
armed, the previously pending one has been cancelled, so the fresh timer is
the only live one. -/
theorem schedule_timers_never_stack (s : RM) (h : goodTimers s) :
    (∀ n : Nat, (schedN n s).pendingReconnects.length ≤ 1) ∧
    (s.isReconnecting = true → scheduleReconnection s = (s, [], [])) ∧
    (s.isReconnecting = false → s.lastRoomConfig.isSome = true →
      s.reconnectionAttempts < s.maxReconnectionAttempts →
      (scheduleReconnection s).1.pendingReconnects = [(s.timerCtr, scheduleDelay s)]) := by
  refine ⟨fun n => (goodTimers_schedN n s h).1, fun hr => ?_, fun h1 h2 h3 =>
    schedule_arms_single s h h1 h2 h3⟩
  unfold scheduleReconnection
  rw [hr]
  simp

def sC1 : RM :=
  { initRM with
    isReconnecting := true
    reconnectionAttempts := 1
    lastRoomConfig := some ⟨ "room-1", none ⟩
    pendingReconnects := [ (0, 2000) ]
    reconnectionTimeout := some 0
    timerCtr := 1 }

theorem schedule_timers_never_stack_witness :
    (schedN 3 sC1).pendingReconnects.length ≤ 1 ∧
    scheduleReconnection sC1 = (sC1, [], []) :=
  ⟨(schedule_timers_never_stack sC1 (by decide)).1 3,
   (schedule_timers_never_stack sC1 (by decide)).2.1 rfl⟩

/-! ## C3 -/

/-- C3: a schedule request with the attempt counter at the configured maximum
(and not currently reconnecting, with join parameters recorded as the
scheduler's entry guard requires) performs the final cleanup: the room handle
is cleared and its open peer connections closed, the terminal status `failed`
is emitted, no further retry timer is armed (the live timers are untouched),
and neither the attempt counter nor the stored join parameters are reset. -/
theorem schedule_at_max_is_terminal (s : RM) (c : RoomConfig)
    (hr : s.isReconnecting = false) (hc : s.lastRoomConfig = some c)
    (ha : s.maxReconnectionAttempts ≤ s.reconnectionAttempts) :
    (scheduleReconnection s).1.room = none ∧
    (scheduleReconnection s).2.1 = [ "failed" ] ∧
    (scheduleReconnection s).1.pendingReconnects = s.pendingReconnects ∧
    (scheduleReconnection s).1.reconnectionTimeout = s.reconnectionTimeout ∧
    (scheduleReconnection s).1.reconnectionAttempts = s.reconnectionAttempts ∧
    (scheduleReconnection s).1.lastRoomConfig = some c ∧
    (∀ r : Room, s.room = some r →
      (scheduleReconnection s).2.2 = closeOpenPeers r) := by
  have hsched : scheduleReconnection s =
      ({ s with isReconnecting := false, room := none }, [ "failed" ],
        match s.room with
        | none => []
        | some r => closeOpenPeers r) := by
    unfold scheduleReconnection
    rw [hr, hc]
    simp [ha]
  rw [hsched]
  refine ⟨rfl, rfl, rfl, rfl, rfl, hc, ?_⟩
  intro r hrm
  rw [hrm]

def roomC3 : Room := ⟨ [ ( "alice", false), ( "bob", true) ] ⟩

def sC3 : RM :=
  { initRM with
    room := some roomC3
    reconnectionAttempts := 5
    lastRoomConfig := some ⟨ "room-3", none ⟩ }

theorem schedule_at_max_is_terminal_witness :
    (scheduleReconnection sC3).1.room = none ∧
    (scheduleReconnection sC3).2.1 = [ "failed" ] ∧
    (scheduleReconnection sC3).1.reconnectionAttempts = sC3.reconnectionAttempts ∧
    (scheduleReconnection sC3).1.lastRoomConfig = some ⟨ "room-3", none ⟩ ∧
    (scheduleReconnection sC3).2.2 = closeOpenPeers roomC3 :=
  ⟨(schedule_at_max_is_terminal sC3 ⟨ "room-3", none ⟩ rfl rfl (by decide)).1,
   (schedule_at_max_is_terminal sC3 ⟨ "room-3", none ⟩ rfl rfl (by decide)).2.1,
   (schedule_at_max_is_terminal sC3 ⟨ "room-3", none ⟩ rfl rfl (by decide)).2.2.2.2.1,
   (schedule_at_max_is_terminal sC3 ⟨ "room-3", none ⟩ rfl rfl (by decide)).2.2.2.2.2.1,
   (schedule_at_max_is_terminal sC3 ⟨ "room-3", none ⟩ rfl rfl (by decide)).2.2.2.2.2.2
     roomC3 rfl⟩

/-! ## Helper lemmas about leaveRoom -/

theorem clearReconnectTimer_lastRoomConfig (s : RM) :
    (clearReconnectTimer s).lastRoomConfig = s.lastRoomConfig := by
  unfold clearReconnectTimer
  split <;> rfl

/-- Unfolding of `leaveRoom` when a room is present. -/
theorem leaveRoom_some (s : RM) (r : Room) (hr : s.room = some r) :
    leaveRoom s =
      (clearReconnectTimer
        { s with
          room := none
          isConnected := false
          connectionStable := false
          isReconnecting := false
          lastRoomConfig := none
          connectionHealthTimer := false
          peerHealthTimer := false
          peerHealthChecks := []
          stableConnectionTimer := false },
       [ "disconnected" ], closeOpenPeers r) := by
  unfold leaveRoom
  rw [hr]

/-! ## C10 -/

/-- C10: leaving an active room clears the stored join parameters, and from
any state without stored parameters `scheduleReconnection` is a complete no-op
(no timer armed, no state change, nothing emitted) while `forceReconnection`
throws `No room configuration available for reconnection`. -/
theorem leave_blocks_automatic_rejoin (s : RM) (r : Room)
    (hr : s.room = some r) :
    (leaveRoom s).1.lastRoomConfig = none ∧
    (∀ t : RM, t.lastRoomConfig = none → scheduleReconnection t = (t, [], [])) ∧
    (∀ t : RM, t.lastRoomConfig = none →
      forceReconnection t =
        Except.error "No room configuration available for reconnection") := by
  refine ⟨?_, fun t ht => schedule_noop_of_no_config t ht, fun t ht => ?_⟩
  · rw [leaveRoom_some s r hr]
    rw [clearReconnectTimer_lastRoomConfig]
  · unfold forceReconnection
    rw [ht]
    rfl

def sC10 : RM :=
  { initRM with
    room := some ⟨ [ ( "alice", false) ] ⟩
    lastRoomConfig := some ⟨ "room-10", none ⟩
    isConnected := true }

theorem leave_blocks_automatic_rejoin_witness :
    (leaveRoom sC10).1.lastRoomConfig = none ∧
    scheduleReconnection (leaveRoom sC10).1 = ((leaveRoom sC10).1, [], []) ∧
    forceReconnection (leaveRoom sC10).1 =
      Except.error "No room configuration available for reconnection" :=
  ⟨(leave_blocks_automatic_rejoin sC10 ⟨ [ ( "alice", false) ] ⟩ rfl).1,
   (leave_blocks_automatic_rejoin sC10 ⟨ [ ( "alice", false) ] ⟩ rfl).2.1
     (leaveRoom sC10).1
     (leave_blocks_automatic_rejoin sC10 ⟨ [ ( "alice", false) ] ⟩ rfl).1,
   (leave_blocks_automatic_rejoin sC10 ⟨ [ ( "alice", false) ] ⟩ rfl).2.2
     (leaveRoom sC10).1
     (leave_blocks_automatic_rejoin sC10 ⟨ [ ( "alice", false) ] ⟩ rfl).1⟩

/-! ## C9 -/

/-- C9: with no active room, `getPeers` returns an empty map and
`removeStream` returns without effect or error, while `addStream` and
`makeAction` throw `No room available`; with an active room, `pingPeer`
never propagates a transport ping failure and returns the resolved latency or
null. -/
theorem api_no_room_asymmetry :
    (∀ s : RM, s.room = none →
      getPeers s = [] ∧
      removeStream s = Except.ok none ∧
      addStream s = Except.error "No room available" ∧
      (∀ a : String, makeAction s a = Except.error "No room available")) ∧
    (∀ s : RM, ∀ r : Room, s.room = some r →
      ∀ ping : String → Option Nat, ∀ pid : String,
        pingPeer s ping pid = Except.ok (ping pid)) := by
  constructor
  · intro s hs
    refine ⟨?_, ?_, ?_, fun a => ?_⟩ <;>
      simp [getPeers, removeStream, addStream, makeAction, hs]
  · intro s r hr ping pid
    cases hp : ping pid <;> simp [pingPeer, hr, hp]

def sC9 : RM := { initRM with room := some ⟨ [ ( "p1", false) ] ⟩ }

theorem api_no_room_asymmetry_witness :
    (getPeers initRM = [] ∧
     removeStream initRM = Except.ok none ∧
     addStream initRM = Except.error "No room available" ∧
     (∀ a : String, makeAction initRM a = Except.error "No room available")) ∧
    pingPeer sC9 (fun _ => none) "p1" = Except.ok none :=
  ⟨api_no_room_asymmetry.1 initRM rfl,
   api_no_room_asymmetry.2 sC9 ⟨ [ ( "p1", false) ] ⟩ rfl (fun _ => none) "p1"⟩

/-! ## C2 -/

/-- C2: for every attempt number n with 1 ≤ n ≤ maxReconnectionAttempts (5),
the backoff delay armed by `scheduleReconnection` (entered with the counter at
n−1 under the default configuration) equals min(2000·1.5^(n−1), 30000) ms; the
delay formula is monotonically non-decreasing in the attempt number, capped at
30000 ms, and produces 2000, 3000, 4500, 6750, 10125 for the five attempts. -/
theorem backoff_delay_formula (n : Nat) (h1 : 1 ≤ n) (h5 : n ≤ 5) (s : RM)
    (hb : s.reconnectionDelay = 2000) (hm : s.maxReconnectionDelay = 30000)
    (hmax : s.maxReconnectionAttempts = 5) (ha : s.reconnectionAttempts = n - 1)
    (hr : s.isReconnecting = false) (hc : s.lastRoomConfig.isSome = true)
    (hg : goodTimers s) :
    (scheduleReconnection s).1.pendingReconnects =
      [(s.timerCtr, min (2000 * (3 / 2 : ℚ) ^ (n - 1)) 30000)] ∧
    (∀ m : Nat, min (2000 * (3 / 2 : ℚ) ^ (m - 1)) 30000 ≤
      min (2000 * (3 / 2 : ℚ) ^ m) 30000) ∧
    min (2000 * (3 / 2 : ℚ) ^ (n - 1)) 30000 ≤ 30000 ∧
    min (2000 * (3 / 2 : ℚ) ^ (0 : Nat)) 30000 = 2000 ∧
    min (2000 * (3 / 2 : ℚ) ^ (1 : Nat)) 30000 = 3000 ∧
    min (2000 * (3 / 2 : ℚ) ^ (2 : Nat)) 30000 = 4500 ∧
    min (2000 * (3 / 2 : ℚ) ^ (3 : Nat)) 30000 = 6750 ∧
    min (2000 * (3 / 2 : ℚ) ^ (4 : Nat)) 30000 = 10125 := by
  have harm := schedule_arms_single s hg hr hc (by omega)
  refine ⟨?_, ?_, min_le_right _ _, ?_, ?_, ?_, ?_, ?_⟩
  · rw [harm]
    unfold scheduleDelay
    rw [hb, hm, ha]
  · intro m
    apply min_le_min _ le_rfl
    apply mul_le_mul_of_nonneg_left _ (by norm_num)
    exact pow_le_pow_right₀ (by norm_num) (Nat.sub_le m 1)
  · norm_num [min_def]
  · norm_num [min_def]
  · norm_num [min_def]
  · norm_num [min_def]
  · norm_num [min_def]

def sC2 : RM :=
  { initRM with
    reconnectionAttempts := 2
    lastRoomConfig := some ⟨ "room-2", none ⟩ }

theorem backoff_delay_formula_witness :
    (scheduleReconnection sC2).1.pendingReconnects =
      [(sC2.timerCtr, min (2000 * (3 / 2 : ℚ) ^ (3 - 1)) 30000)] ∧
    (∀ m : Nat, min (2000 * (3 / 2 : ℚ) ^ (m - 1)) 30000 ≤
      min (2000 * (3 / 2 : ℚ) ^ m) 30000) ∧
    min (2000 * (3 / 2 : ℚ) ^ (3 - 1)) 30000 ≤ 30000 ∧
    min (2000 * (3 / 2 : ℚ) ^ (0 : Nat)) 30000 = 2000 ∧
    min (2000 * (3 / 2 : ℚ) ^ (1 : Nat)) 30000 = 3000 ∧
    min (2000 * (3 / 2 : ℚ) ^ (2 : Nat)) 30000 = 4500 ∧
    min (2000 * (3 / 2 : ℚ) ^ (3 : Nat)) 30000 = 6750 ∧
    min (2000 * (3 / 2 : ℚ) ^ (4 : Nat)) 30000 = 10125 :=
  backoff_delay_formula 3 (by decide) (by decide) sC2 rfl rfl rfl rfl rfl rfl
    (by decide)

/-! ## C5 -/

theorem handleLoss_noop_of_reconnecting (t : RM) (ht : t.isReconnecting = true) :
    handleConnectionLoss t = (t, [], []) := by
  unfold handleConnectionLoss
  rw [ht]
  simp

theorem checkHealth_noop_of_disconnected (t : RM) (ht : t.isConnected = false)
    (k : Nat) : checkConnectionHealth t k = (t, [], []) := by
  unfold checkConnectionHealth
  rw [ht]
  simp

/-- C5: with the session marked stable, a health sweep that observes zero
connected trackers emits `reconnecting` exactly once (even when the scheduler
also emits `failed`); after it, every further sweep is a complete no-op
(the manager is no longer flagged connected), and any direct
`handleConnectionLoss` while a reconnection is in flight is a no-op that
emits nothing. -/
theorem connection_loss_transitions_once (s : RM) (r : Room)
    (hst : s.connectionStable = true) (hco : s.isConnected = true)
    (hr : s.room = some r) (hnr : s.isReconnecting = false) :
    (checkConnectionHealth s 0).2.1.count "reconnecting" = 1 ∧
    (∀ k : Nat, checkConnectionHealth (checkConnectionHealth s 0).1 k =
      ((checkConnectionHealth s 0).1, [], [])) ∧
    (∀ t : RM, t.isReconnecting = true → handleConnectionLoss t = (t, [], [])) := by
  have hcc : checkConnectionHealth s 0 = handleConnectionLoss s := by
    unfold checkConnectionHealth
    rw [hco, hr, hst]
    simp
  have hlight : handleConnectionLoss s =
      ((scheduleReconnection
          { s with isConnected := false, connectionStable := false }).1,
       "reconnecting" ::
         (scheduleReconnection
           { s with isConnected := false, connectionStable := false }).2.1,
       (scheduleReconnection
         { s with isConnected := false, connectionStable := false }).2.2) := by
    unfold handleConnectionLoss
    rw [hnr]
    simp
  refine ⟨?_, ?_, fun t ht => handleLoss_noop_of_reconnecting t ht⟩
  · rw [hcc, hlight]
    rcases schedule_statuses
        { s with isConnected := false, connectionStable := false } with h | h <;>
      simp [h]
  · intro k
    apply checkHealth_noop_of_disconnected
    rw [hcc, hlight]
    rw [schedule_isConnected]

def sC5 : RM :=
  { initRM with
    room := some ⟨ [ ( "p1", false) ] ⟩
    isConnected := true
    connectionStable := true
    lastRoomConfig := some ⟨ "room-5", none ⟩ }

theorem connection_loss_transitions_once_witness :
    (checkConnectionHealth sC5 0).2.1.count "reconnecting" = 1 ∧
    checkConnectionHealth (checkConnectionHealth sC5 0).1 0 =
      ((checkConnectionHealth sC5 0).1, [], []) ∧
    handleConnectionLoss (checkConnectionHealth sC5 0).1 =
      ((checkConnectionHealth sC5 0).1, [], []) :=
  ⟨(connection_loss_transitions_once sC5 ⟨ [ ( "p1", false) ] ⟩ rfl rfl rfl rfl).1,
   (connection_loss_transitions_once sC5 ⟨ [ ( "p1", false) ] ⟩ rfl rfl rfl rfl).2.1 0,
   (connection_loss_transitions_once sC5 ⟨ [ ( "p1", false) ] ⟩ rfl rfl rfl rfl).2.2
     (checkConnectionHealth sC5 0).1 rfl⟩

/-! ## C6 -/

/-- C6: when `joinRoom` fails (after the transport join throws, here in a
state with no previous room so no pre-join teardown runs), it emits `failed`
first, rethrows the error to the caller, and invokes the reconnection
scheduler if and only if the connection had become stable or the attempt
counter is positive. -/
theorem join_failure_emits_failed_and_schedules_iff (cfg : RoomConfig)
    (newRoom : Room) (s : RM) (hroom : s.room = none) :
    (joinRoom cfg false newRoom s).statuses.head? = some "failed" ∧
    ((joinRoom cfg false newRoom s).invokedScheduler = true ↔
      (s.connectionStable = true ∨ 0 < s.reconnectionAttempts)) ∧
    (joinRoom cfg false newRoom s).result = Except.error "join failed" := by
  simp only [joinRoom, hroom, Option.isSome_none, Bool.false_and,
    Bool.false_eq_true, if_false]
  split
  · next h =>
      refine ⟨by simp, ?_, rfl⟩
      simp only [Bool.or_eq_true, decide_eq_true_eq] at h
      simpa using h
  · next h =>
      refine ⟨by simp, ?_, rfl⟩
      simp only [Bool.or_eq_true, decide_eq_true_eq] at h
      simpa using h

def sC6 : RM := { initRM with connectionStable := true }

theorem join_failure_emits_failed_and_schedules_iff_witness :
    (joinRoom ⟨ "room-6", none ⟩ false ⟨ [] ⟩ sC6).statuses.head? = some "failed" ∧
    ((joinRoom ⟨ "room-6", none ⟩ false ⟨ [] ⟩ sC6).invokedScheduler = true ↔
      (sC6.connectionStable = true ∨ 0 < sC6.reconnectionAttempts)) ∧
    (joinRoom ⟨ "room-6", none ⟩ false ⟨ [] ⟩ sC6).result =
      Except.error "join failed" :=
  join_failure_emits_failed_and_schedules_iff ⟨ "room-6", none ⟩ ⟨ [] ⟩ sC6 rfl

/-! ## C4 -/

theorem clearReconnectTimer_timeout (t : RM) :
    (clearReconnectTimer t).reconnectionTimeout = none := by
  unfold clearReconnectTimer
  split
  · next heq => exact heq
  · rfl

theorem clearReconnectTimer_other_fields (t : RM) :
    (clearReconnectTimer t).room = t.room ∧
    (clearReconnectTimer t).stableConnectionTimer = t.stableConnectionTimer ∧
    (clearReconnectTimer t).connectionHealthTimer = t.connectionHealthTimer ∧
    (clearReconnectTimer t).peerHealthTimer = t.peerHealthTimer ∧
    (clearReconnectTimer t).peerHealthChecks = t.peerHealthChecks := by
  unfold clearReconnectTimer
  split <;> exact ⟨rfl, rfl, rfl, rfl, rfl⟩

theorem clearReconnectTimer_pending_nil (t : RM)
    (h : ∀ p ∈ t.pendingReconnects, t.reconnectionTimeout = some p.1) :
    (clearReconnectTimer t).pendingReconnects = [] := by
  unfold clearReconnectTimer
  split
  · next heq =>
      cases hl : t.pendingReconnects with
      | nil => rfl
      | cons a as =>
          have ha := h a (by rw [hl]; exact List.mem_cons_self a as)
          rw [heq] at ha
          cases ha
  · next h0 heq =>
      show clearPending t.pendingReconnects (some h0) = []
      refine clearPending_eq_nil _ _ ?_
      intro p hp
      rw [← heq]
      exact h p hp

theorem leaveRoom_noop_of_no_room (t : RM) (ht : t.room = none) :
    leaveRoom t = (t, [], []) := by
  unfold leaveRoom
  rw [ht]

def sC4 : RM :=
  { initRM with
    isReconnecting := true
    reconnectionAttempts := 1
    lastRoomConfig := some ⟨ "room-4", none ⟩
    pendingReconnects := [ (0, 2000) ]
    reconnectionTimeout := some 0
    timerCtr := 1 }

/-- C4 counterexample: in the (reachable) state where a rejoin attempt failed
and armed a retry timer — so no room handle exists but a reconnection timer
is pending — one call to `leaveRoom` is a complete no-op: the pending timer
stays armed and no `disconnected` status is emitted, contrary to the claim
that in every state one `leaveRoom` call leaves no pending reconnection timer
and emits `disconnected`. -/
theorem leave_counterexample :
    sC4.pendingReconnects = [ (0, 2000) ] ∧ leaveRoom sC4 = (sC4, [], []) :=
  ⟨rfl, rfl⟩

/-- C4 amended: when an active room exists, one `leaveRoom` call cancels
every timer owned by the session (pending reconnection timer, stability
timer, both health-monitor intervals), empties the peer health table, emits
exactly `disconnected`, and a second immediate call is a no-op leaving the
state unchanged; when no room exists, `leaveRoom` is a complete no-op (it
does not cancel a pending reconnection timer and emits nothing). -/
theorem leave_with_room_cleans_everything (s : RM) (r : Room)
    (hr : s.room = some r) (hg : goodTimers s) :
    (leaveRoom s).1.pendingReconnects = [] ∧
    (leaveRoom s).1.reconnectionTimeout = none ∧
    (leaveRoom s).1.stableConnectionTimer = false ∧
    (leaveRoom s).1.connectionHealthTimer = false ∧
    (leaveRoom s).1.peerHealthTimer = false ∧
    (leaveRoom s).1.peerHealthChecks = [] ∧
    (leaveRoom s).2.1 = [ "disconnected" ] ∧
    leaveRoom (leaveRoom s).1 = ((leaveRoom s).1, [], []) ∧
    (∀ t : RM, t.room = none → leaveRoom t = (t, [], [])) := by
  rw [leaveRoom_some s r hr]
  refine ⟨?_, clearReconnectTimer_timeout _, ?_, ?_, ?_, ?_, rfl, ?_,
    fun t ht => leaveRoom_noop_of_no_room t ht⟩
  · exact clearReconnectTimer_pending_nil _ (fun p hp => hg.2 p hp)
  · rw [(clearReconnectTimer_other_fields _).2.1]
  · rw [(clearReconnectTimer_other_fields _).2.2.1]
  · rw [(clearReconnectTimer_other_fields _).2.2.2.1]
  · rw [(clearReconnectTimer_other_fields _).2.2.2.2]
  · exact leaveRoom_noop_of_no_room _ (by rw [(clearReconnectTimer_other_fields _).1])

def sC4w : RM :=
  { initRM with
    room := some ⟨ [ ( "p1", false), ( "p2", true) ] ⟩
    isConnected := true
    connectionStable := true
    stableConnectionTimer := true
    connectionHealthTimer := true
    peerHealthTimer := true
    peerHealthChecks := [ ( "p1", 5) ]
    lastRoomConfig := some ⟨ "room-4w", none ⟩
    pendingReconnects := [ (7, 3000) ]
    reconnectionTimeout := some 7
    timerCtr := 8 }

theorem leave_with_room_cleans_everything_witness :
    (leaveRoom sC4w).1.pendingReconnects = [] ∧
    (leaveRoom sC4w).1.reconnectionTimeout = none ∧
    (leaveRoom sC4w).1.stableConnectionTimer = false ∧
    (leaveRoom sC4w).1.connectionHealthTimer = false ∧
    (leaveRoom sC4w).1.peerHealthTimer = false ∧
    (leaveRoom sC4w).1.peerHealthChecks = [] ∧
    (leaveRoom sC4w).2.1 = [ "disconnected" ] ∧
    leaveRoom (leaveRoom sC4w).1 = ((leaveRoom sC4w).1, [], []) ∧
    (∀ t : RM, t.room = none → leaveRoom t = (t, [], [])) :=
  leave_with_room_cleans_everything sC4w ⟨ [ ( "p1", false), ( "p2", true) ] ⟩
    rfl (by decide)

/-! ## C8 -/

def sAfterJoin : RM := (joinRoom ⟨ "room-8", none ⟩ true ⟨ [] ⟩ initRM).state

/-- C8 counterexample: in the state the claim itself designates for the value
`connected` — immediately after a successful join, before stability —
`getConnectionStatus` returns `connecting`, not `connected`. -/
theorem status_counterexample :
    getConnectionStatus sAfterJoin = "connecting" ∧
    getConnectionStatus sAfterJoin ≠ "connected" :=
  ⟨rfl, by decide⟩

/-- C8 amended: `getConnectionStatus` always returns one of the four values
disconnected, connecting, stable, reconnecting — never `connected` or
`failed`, which appear only as callback emissions — and each of the four is
returned in a reachable state: initially `disconnected`, after a successful
join `connecting` (not `connected`), after the stability timer fires
`stable`, and after a connection loss `reconnecting`. -/
theorem status_range_and_reachability :
    (∀ s : RM, getConnectionStatus s = "disconnected" ∨
      getConnectionStatus s = "connecting" ∨
      getConnectionStatus s = "stable" ∨
      getConnectionStatus s = "reconnecting") ∧
    getConnectionStatus initRM = "disconnected" ∧
    getConnectionStatus sAfterJoin = "connecting" ∧
    getConnectionStatus (stableTimerFire sAfterJoin) = "stable" ∧
    getConnectionStatus (handleConnectionLoss (stableTimerFire sAfterJoin)).1 =
      "reconnecting" := by
  refine ⟨?_, rfl, rfl, rfl, rfl⟩
  intro s
  unfold getConnectionStatus
  split
  · exact Or.inr (Or.inr (Or.inr rfl))
  · split
    · exact Or.inl rfl
    · split
      · exact Or.inr (Or.inr (Or.inl rfl))
      · exact Or.inr (Or.inl rfl)

/-! ## Helper lemmas about the peer health sweep -/

theorem keys_update_map (table : List (String × Nat)) (pid : String) (now : Nat) :
    (table.map (fun q => if q.1 = pid then (pid, now) else q)).map Prod.fst =
      table.map Prod.fst := by
  induction table with
  | nil => rfl
  | cons a as ih =>
      simp only [List.map_cons, ih, List.cons.injEq, and_true]
      split
      · next h => exact h.symm
      · rfl

theorem sweepPeers_mem_keys (th now : Nat) (ping : String → Option Nat) :
    ∀ (es table : List (String × Nat)), ∀ q ∈ (sweepPeers th now ping es table).1,
      q.1 ∈ table.map Prod.fst := by
  intro es
  induction es with
  | nil =>
      intro table q hq
      exact List.mem_map_of_mem _ hq
  | cons e rest ih =>
      intro table q hq
      obtain ⟨k, v⟩ := e
      simp only [sweepPeers] at hq
      split at hq
      · have h1 := ih _ q hq
        obtain ⟨p, hp, hp1⟩ := List.mem_map.mp h1
        rw [← hp1]
        exact List.mem_map_of_mem _ (List.mem_of_mem_filter hp)
      · cases hping : ping k with
        | some l =>
            simp only [hping] at hq
            have h1 := ih _ q hq
            rw [keys_update_map table k now] at h1
            exact h1
        | none =>
            simp only [hping] at hq
            exact ih _ q hq

theorem sweepPeers_pinged_sub (th now : Nat) (ping : String → Option Nat) :
    ∀ (es table : List (String × Nat)), ∀ x ∈ (sweepPeers th now ping es table).2,
      x ∈ es.map Prod.fst := by
  intro es
  induction es with
  | nil =>
      intro table x hx
      simp only [sweepPeers] at hx
      cases hx
  | cons e rest ih =>
      intro table x hx
      obtain ⟨k, v⟩ := e
      simp only [List.map_cons]
      simp only [sweepPeers] at hx
      split at hx
      · exact List.mem_cons_of_mem _ (ih _ x hx)
      · cases hping : ping k with
        | some l =>
            simp only [hping] at hx
            rcases List.mem_cons.mp hx with h | h
            · rw [h]; exact List.mem_cons_self _ _
            · exact List.mem_cons_of_mem _ (ih _ x h)
        | none =>
            simp only [hping] at hx
            rcases List.mem_cons.mp hx with h | h
            · rw [h]; exact List.mem_cons_self _ _
            · exact List.mem_cons_of_mem _ (ih _ x h)

theorem sweepPeers_key_absent (th now : Nat) (ping : String → Option Nat)
    (pid : String) (es table : List (String × Nat))
    (h : pid ∉ table.map Prod.fst) :
    pid ∉ (sweepPeers th now ping es table).1.map Prod.fst := by
  intro hmem
  obtain ⟨q, hq, hq1⟩ := List.mem_map.mp hmem
  apply h
  rw [← hq1]
  exact sweepPeers_mem_keys th now ping es table q hq

theorem key_not_mem_filter (table : List (String × Nat)) (pid : String) :
    pid ∉ (table.filter (fun q => decide (q.1 ≠ pid))).map Prod.fst := by
  intro hmem
  obtain ⟨q, hq, hq1⟩ := List.mem_map.mp hmem
  have h2 := (List.mem_filter.mp hq).2
  simp only [decide_eq_true_eq] at h2
  exact h2 hq1

theorem sweepPeers_preserves_foreign (th now : Nat) (ping : String → Option Nat)
    (pid : String) :
    ∀ (es table : List (String × Nat)), pid ∉ es.map Prod.fst →
      ∀ v : Nat, (pid, v) ∈ table → (pid, v) ∈ (sweepPeers th now ping es table).1 := by
  intro es
  induction es with
  | nil =>
      intro table _ v hv
      simpa [sweepPeers] using hv
  | cons e rest ih =>
      intro table hpid v hv
      obtain ⟨k, last⟩ := e
      have hk : ¬ (pid = k) := by
        intro h
        exact hpid (by simp [List.map_cons, h])
      have hrest : pid ∉ rest.map Prod.fst := by
        intro h
        exact hpid (by simp [List.map_cons, h])
      simp only [sweepPeers]
      split
      · refine ih _ hrest v ?_
        rw [List.mem_filter]
        refine ⟨hv, ?_⟩
        simp only [decide_eq_true_eq]
        exact hk
      · cases hping : ping k with
        | some l =>
            simp only [hping]
            refine ih _ hrest v ?_
            have himg : (fun q => if q.1 = k then (k, now) else q) (pid, v) =
                (pid, v) := by
              simp [hk]
            rw [← himg]
            exact List.mem_map_of_mem _ hv
        | none =>
            simp only [hping]
            exact ih _ hrest v hv

theorem sweepPeers_entry (th now : Nat) (ping : String → Option Nat)
    (pid : String) (last : Nat) :
    ∀ (es table : List (String × Nat)),
      (es.map Prod.fst).Nodup → (pid, last) ∈ es → (pid, last) ∈ table →
      (th < now - last →
        pid ∉ (sweepPeers th now ping es table).1.map Prod.fst ∧
        pid ∉ (sweepPeers th now ping es table).2) ∧
      (¬ th < now - last →
        pid ∈ (sweepPeers th now ping es table).2 ∧
        (∀ l : Nat, ping pid = some l →
          (pid, now) ∈ (sweepPeers th now ping es table).1) ∧
        (ping pid = none → (pid, last) ∈ (sweepPeers th now ping es table).1)) := by
  intro es
  induction es with
  | nil =>
      intro table _ hmem _
      exact absurd hmem (List.not_mem_nil _)
  | cons e rest ih =>
      intro table hnd hmem htab
      obtain ⟨k, v⟩ := e
      have hndk : k ∉ rest.map Prod.fst := by
        simp only [List.map_cons] at hnd
        exact (List.nodup_cons.mp hnd).1
      have hndrest : (rest.map Prod.fst).Nodup := by
        simp only [List.map_cons] at hnd
        exact (List.nodup_cons.mp hnd).2
      by_cases hkp : k = pid
      · subst hkp
        have hv : last = v := by
          rcases List.mem_cons.mp hmem with h | h
          · simpa using congrArg Prod.snd h
          · exact absurd (List.mem_map_of_mem Prod.fst h) hndk
        subst hv
        constructor
        · intro hstale
          simp only [sweepPeers, if_pos hstale]
          constructor
          · exact sweepPeers_key_absent th now ping k rest _
              (key_not_mem_filter table k)
          · intro hp
            exact hndk (sweepPeers_pinged_sub th now ping rest _ k hp)
        · intro hfresh
          simp only [sweepPeers, if_neg hfresh]
          cases hping : ping k with
          | some l =>
              simp only [hping]
              refine ⟨List.mem_cons_self _ _, fun l2 _ => ?_, fun hnone => ?_⟩
              · refine sweepPeers_preserves_foreign th now ping k rest _ hndk now ?_
                refine List.mem_map.mpr ⟨(k, last), htab, ?_⟩
                simp
              · exact Option.noConfusion hnone
          | none =>
              simp only [hping]
              refine ⟨List.mem_cons_self _ _, fun l2 hl2 => ?_, fun _ => ?_⟩
              · exact Option.noConfusion hl2
              · exact sweepPeers_preserves_foreign th now ping k rest _ hndk last htab
      · have hmem2 : (pid, last) ∈ rest := by
          rcases List.mem_cons.mp hmem with h | h
          · exact absurd (congrArg Prod.fst h).symm hkp
          · exact h
        have hne : ¬ (pid = k) := fun h => hkp h.symm
        simp only [sweepPeers]
        split
        · have htab2 : (pid, last) ∈ table.filter (fun q => decide (q.1 ≠ k)) := by
            rw [List.mem_filter]
            refine ⟨htab, ?_⟩
            simp only [decide_eq_true_eq]
            exact hne
          exact ih _ hndrest hmem2 htab2
        · cases hping : ping k with
          | some l =>
              simp only [hping]
              have htab2 : (pid, last) ∈
                  table.map (fun q => if q.1 = k then (k, now) else q) := by
                have himg : (fun q => if q.1 = k then (k, now) else q) (pid, last) =
                    (pid, last) := by simp [hne]
                rw [← himg]
                exact List.mem_map_of_mem _ htab
              have IH := ih _ hndrest hmem2 htab2
              refine ⟨fun hstale => ⟨(IH.1 hstale).1, ?_⟩,
                fun hfresh => ⟨List.mem_cons_of_mem _ (IH.2 hfresh).1,
                  (IH.2 hfresh).2.1, (IH.2 hfresh).2.2⟩⟩
              intro hp
              rcases List.mem_cons.mp hp with h | h
              · exact hne h
              · exact (IH.1 hstale).2 h
          | none =>
              simp only [hping]
              have IH := ih _ hndrest hmem2 htab
              refine ⟨fun hstale => ⟨(IH.1 hstale).1, ?_⟩,
                fun hfresh => ⟨List.mem_cons_of_mem _ (IH.2 hfresh).1,
                  (IH.2 hfresh).2.1, (IH.2 hfresh).2.2⟩⟩
              intro hp
              rcases List.mem_cons.mp hp with h | h
              · exact hne h
              · exact (IH.1 hstale).2 h

/-! ## C7 -/

/-- C7: on each peer health sweep (run guards satisfied; health-table keys
unique, as a JS Map guarantees), every tracked peer whose time since last
successful contact exceeds the 30 s timeout threshold is removed from health
tracking and not pinged in that sweep; every other tracked peer is pinged,
and a successful ping updates its last-seen timestamp to the sweep time while
a failed ping leaves its record unchanged — a single failed ping never
removes a peer. -/
theorem peer_health_sweep (s : RM) (now : Nat) (ping : String → Option Nat)
    (r : Room) (hco : s.isConnected = true) (hr : s.room = some r)
    (hnd : (s.peerHealthChecks.map Prod.fst).Nodup)
    (pid : String) (last : Nat) (hmem : (pid, last) ∈ s.peerHealthChecks) :
    (s.peerTimeoutThreshold < now - last →
      pid ∉ (checkPeerHealth s now ping).1.peerHealthChecks.map Prod.fst ∧
      pid ∉ (checkPeerHealth s now ping).2) ∧
    (¬ s.peerTimeoutThreshold < now - last →
      pid ∈ (checkPeerHealth s now ping).2 ∧
      (∀ l : Nat, ping pid = some l →
        (pid, now) ∈ (checkPeerHealth s now ping).1.peerHealthChecks) ∧
      (ping pid = none →
        (pid, last) ∈ (checkPeerHealth s now ping).1.peerHealthChecks)) := by
  have hred : checkPeerHealth s now ping =
      ({ s with peerHealthChecks := (sweepPeers s.peerTimeoutThreshold now ping
          s.peerHealthChecks s.peerHealthChecks).1 },
       (sweepPeers s.peerTimeoutThreshold now ping
          s.peerHealthChecks s.peerHealthChecks).2) := by
    unfold checkPeerHealth
    rw [hco, hr]
    simp
  rw [hred]
  exact sweepPeers_entry s.peerTimeoutThreshold now ping pid last
    s.peerHealthChecks s.peerHealthChecks hnd hmem hmem

def sC7 : RM :=
  { initRM with
    room := some ⟨ [ ( "p1", false) ] ⟩
    isConnected := true
    peerHealthChecks := [ ( "p1", 100), ( "p2", 90) ] }

def pingC7 : String → Option Nat := fun _ => some 42

theorem peer_health_sweep_witness :
    ¬ sC7.peerTimeoutThreshold < 20000 - 100 ∧
    "p1" ∈ (checkPeerHealth sC7 20000 pingC7).2 ∧
    ( "p1", 20000) ∈ (checkPeerHealth sC7 20000 pingC7).1.peerHealthChecks := by
  have h := (peer_health_sweep sC7 20000 pingC7 ⟨ [ ( "p1", false) ] ⟩ rfl rfl
    (by decide) "p1" 100 (by decide)).2 (by decide)
  exact ⟨by decide, h.1, h.2.1 42 rfl⟩
